import Mathlib

/-!
Linalg codegen strategy (`CodegenStrategy.h`).

A shallow embedding of `mlir/Dialect/Linalg/Transforms/CodegenStrategy.h`:
the three stage classes `Tile`, `Promote`, `Vectorize`, the helper
`sfinae_enqueue`, and the fluent builder `CodegenStrategy`.

Conventions of the embedding.
* Types and values declared in headers that the file only includes
  (`Transforms.h`, `VectorToSCF.h`) are fields of `Externals`.
* A template argument `LinalgOpType` is a value of `E.OpType`;
  `E.getOperationName` is `some n` when the C++ type has a static
  `getOperationName()` returning `n`, and `none` when it has none.
* A `FilterFunction` argument is an `Option`; `none` is `nullptr`.
* A method that returns `*this` maps the strategy to the strategy after the call.
* `assert` is checked: a failing assertion makes the function return `none`.
* `OwningRewritePatternList` is a list; `insert` appends at the end.
-/

namespace mlir.linalg

/-- Declarations that `CodegenStrategy.h` uses and other headers provide. -/
structure Externals where
  /-- The C++ types usable as the template argument `LinalgOpType`. -/
  OpType : Type
  /-- The static accessor `T::getOperationName()`, `none` for a type without one. -/
  getOperationName : OpType → Option String
  MLIRContext : Type
  /-- The type `LinalgTransformationFilter::FilterFunction`. -/
  FilterFunction : Type
  LinalgTransformationFilter : Type
  LinalgTilingOptions : Type
  LinalgPromotionOptions : Type
  LinalgVectorizationOptions : Type
  /-- The value `linalg::LinalgVectorizationOptions()`. -/
  defaultLinalgVectorizationOptions : LinalgVectorizationOptions
  VectorTransformsOptions : Type
  /-- The default-constructed `vector::VectorTransformsOptions`. -/
  defaultVectorTransformsOptions : VectorTransformsOptions
  VectorTransferToSCFOptions : Type
  /-- The default-constructed `VectorTransferToSCFOptions`. -/
  defaultVectorTransferToSCFOptions : VectorTransferToSCFOptions

/-- The arguments `sfinae_enqueue` hands to the constructor of `PatternType<Op>`:
`(context, options, m)` in the first overload (`opName = none`) and
`(opName, context, options, m)` in the second. No benefit is passed. -/
structure LinalgPatternArgs (E : Externals) (OptionsType : Type) where
  opType : E.OpType
  opName : Option String
  context : E.MLIRContext
  options : OptionsType
  filter : E.LinalgTransformationFilter

/-- The rewrite patterns the header inserts into a pattern list. -/
inductive RewritePattern (E : Externals) where
  | LinalgTilingPattern (args : LinalgPatternArgs E E.LinalgTilingOptions)
  | LinalgPromotionPattern (args : LinalgPatternArgs E E.LinalgPromotionOptions)
  | LinalgVectorizationPattern (args : LinalgPatternArgs E E.LinalgVectorizationOptions)
  | LinalgCopyVTRForwardingPattern (context : E.MLIRContext) (benefit : Nat)
  | LinalgCopyVTWForwardingPattern (context : E.MLIRContext) (benefit : Nat)

/-- The type `OwningRewritePatternList`, in insertion order. -/
abbrev OwningRewritePatternList (E : Externals) := List (RewritePattern E)

/-- Both overloads of `sfinae_enqueue`. The overload for a `ConcreteOpType` that
has `getOperationName` asserts `opName.empty() || opName == getOperationName()`
and inserts `PatternType<ConcreteOpType>(context, options, m)`; the overload for
the other types asserts `!opName.empty()` and inserts
`PatternType<OpType>(opName, context, options, m)`. -/
def sfinae_enqueue {E : Externals} {OptionsType : Type}
    (PatternType : LinalgPatternArgs E OptionsType → RewritePattern E)
    (ConcreteOpType : E.OpType) (patterList : OwningRewritePatternList E)
    (options : OptionsType) (context : E.MLIRContext) (opName : String)
    (m : E.LinalgTransformationFilter) : Option (OwningRewritePatternList E) :=
  match E.getOperationName ConcreteOpType with
  | some ownName =>
    if opName.isEmpty || opName == ownName then
      some (patterList ++ [PatternType ⟨ConcreteOpType, none, context, options, m⟩])
    else none
  | none =>
    if !opName.isEmpty then
      some (patterList ++ [PatternType ⟨ConcreteOpType, some opName, context, options, m⟩])
    else none

/-- The stage `Tile<LinalgOpType>`; `filter` is the field of the base class
`Transformation`. -/
structure Tile (E : Externals) where
  LinalgOpType : E.OpType
  filter : Option E.FilterFunction
  opName : String
  options : E.LinalgTilingOptions

/-- The stage `Promote<LinalgOpType>`. -/
structure Promote (E : Externals) where
  LinalgOpType : E.OpType
  filter : Option E.FilterFunction
  opName : String
  options : E.LinalgPromotionOptions

/-- The stage `Vectorize<LinalgOpType>`. -/
structure Vectorize (E : Externals) where
  LinalgOpType : E.OpType
  filter : Option E.FilterFunction
  opName : String
  options : E.LinalgVectorizationOptions

/-- Constructor `Tile(options, f)`: `Transformation(f), opName(""), options(options)`. -/
def Tile.create {E : Externals} (LinalgOpType : E.OpType)
    (options : E.LinalgTilingOptions) (f : Option E.FilterFunction) : Tile E :=
  { LinalgOpType := LinalgOpType, filter := f, opName := "", options := options }

/-- Constructor `Tile(name, options, f)`. -/
def Tile.createNamed {E : Externals} (LinalgOpType : E.OpType) (name : String)
    (options : E.LinalgTilingOptions) (f : Option E.FilterFunction) : Tile E :=
  { LinalgOpType := LinalgOpType, filter := f, opName := name, options := options }

/-- Constructor `Promote(options, f)`. -/
def Promote.create {E : Externals} (LinalgOpType : E.OpType)
    (options : E.LinalgPromotionOptions) (f : Option E.FilterFunction) : Promote E :=
  { LinalgOpType := LinalgOpType, filter := f, opName := "", options := options }

/-- Constructor `Promote(name, options, f)`. -/
def Promote.createNamed {E : Externals} (LinalgOpType : E.OpType) (name : String)
    (options : E.LinalgPromotionOptions) (f : Option E.FilterFunction) : Promote E :=
  { LinalgOpType := LinalgOpType, filter := f, opName := name, options := options }

/-- Constructor `Vectorize(options, f)`. -/
def Vectorize.create {E : Externals} (LinalgOpType : E.OpType)
    (options : E.LinalgVectorizationOptions) (f : Option E.FilterFunction) : Vectorize E :=
  { LinalgOpType := LinalgOpType, filter := f, opName := "", options := options }

/-- Constructor `Vectorize(name, options, f)`. -/
def Vectorize.createNamed {E : Externals} (LinalgOpType : E.OpType) (name : String)
    (options : E.LinalgVectorizationOptions) (f : Option E.FilterFunction) : Vectorize E :=
  { LinalgOpType := LinalgOpType, filter := f, opName := name, options := options }

/-- Method `Tile::buildRewritePatterns(context, m)`. The method is not `const`, so
the result pairs the stage after the call with the returned pattern list. -/
def Tile.buildRewritePatterns {E : Externals} (self : Tile E) (context : E.MLIRContext)
    (m : E.LinalgTransformationFilter) : Option (Tile E × OwningRewritePatternList E) :=
  match sfinae_enqueue RewritePattern.LinalgTilingPattern self.LinalgOpType []
      self.options context self.opName m with
  | some tilingPatterns => some (self, tilingPatterns)
  | none => none

/-- Method `Promote::buildRewritePatterns(context, m)`. -/
def Promote.buildRewritePatterns {E : Externals} (self : Promote E)
    (context : E.MLIRContext) (m : E.LinalgTransformationFilter) :
    Option (Promote E × OwningRewritePatternList E) :=
  match sfinae_enqueue RewritePattern.LinalgPromotionPattern self.LinalgOpType []
      self.options context self.opName m with
  | some promotionPatterns => some (self, promotionPatterns)
  | none => none

/-- Method `Vectorize::buildRewritePatterns(context, m)`: the vectorization
pattern, then the two forwarding patterns inserted with `(context, /*benefit=*/2)`. -/
def Vectorize.buildRewritePatterns {E : Externals} (self : Vectorize E)
    (context : E.MLIRContext) (m : E.LinalgTransformationFilter) :
    Option (Vectorize E × OwningRewritePatternList E) :=
  match sfinae_enqueue RewritePattern.LinalgVectorizationPattern self.LinalgOpType []
      self.options context self.opName m with
  | some vectorizationPatterns =>
    some (self, vectorizationPatterns ++
      [RewritePattern.LinalgCopyVTRForwardingPattern context 2,
       RewritePattern.LinalgCopyVTWForwardingPattern context 2])
  | none => none

/-- An owned `std::unique_ptr<Transformation>`: one of the three stage classes. -/
inductive Transformation (E : Externals) where
  | Tile (t : Tile E)
  | Promote (p : Promote E)
  | Vectorize (v : Vectorize E)

/-- The field `filter` of the base class. -/
def Transformation.filter {E : Externals} : Transformation E → Option E.FilterFunction
  | .Tile t => t.filter
  | .Promote p => p.filter
  | .Vectorize v => v.filter

/-- The template argument of the stage. -/
def Transformation.LinalgOpType {E : Externals} : Transformation E → E.OpType
  | .Tile t => t.LinalgOpType
  | .Promote p => p.LinalgOpType
  | .Vectorize v => v.LinalgOpType

/-- The field `opName` of the stage. -/
def Transformation.opName {E : Externals} : Transformation E → String
  | .Tile t => t.opName
  | .Promote p => p.opName
  | .Vectorize v => v.opName

/-- Virtual dispatch of `buildRewritePatterns`. -/
def Transformation.buildRewritePatterns {E : Externals} (self : Transformation E)
    (context : E.MLIRContext) (m : E.LinalgTransformationFilter) :
    Option (Transformation E × OwningRewritePatternList E) :=
  match self with
  | .Tile t => (t.buildRewritePatterns context m).map
      (fun r => (Transformation.Tile r.1, r.2))
  | .Promote p => (p.buildRewritePatterns context m).map
      (fun r => (Transformation.Promote r.1, r.2))
  | .Vectorize v => (v.buildRewritePatterns context m).map
      (fun r => (Transformation.Vectorize r.1, r.2))

/-- The struct `CodegenStrategy` with its four private fields and their
default member initialisers. -/
structure CodegenStrategy (E : Externals) where
  vectorTransformsOptions : E.VectorTransformsOptions := E.defaultVectorTransformsOptions
  vectorToSCFOptions : E.VectorTransferToSCFOptions := E.defaultVectorTransferToSCFOptions
  transformationSequence : List (Transformation E) := []
  enableLICM : Bool := true

namespace CodegenStrategy

variable {E : Externals}

/-- A default-constructed `CodegenStrategy`. -/
def fresh (E : Externals) : CodegenStrategy E := {}

/-- Method `tile<LinalgOpType>(options, f)`. -/
def tile (self : CodegenStrategy E) (LinalgOpType : E.OpType)
    (options : E.LinalgTilingOptions) (f : Option E.FilterFunction) : CodegenStrategy E :=
  { self with transformationSequence :=
      self.transformationSequence ++ [Transformation.Tile (Tile.create LinalgOpType options f)] }

/-- Method `tile<LinalgOpType>(opName, options, f)`. -/
def tileNamed (self : CodegenStrategy E) (LinalgOpType : E.OpType) (opName : String)
    (options : E.LinalgTilingOptions) (f : Option E.FilterFunction) : CodegenStrategy E :=
  { self with transformationSequence :=
      self.transformationSequence ++
        [Transformation.Tile (Tile.createNamed LinalgOpType opName options f)] }

/-- Method `tileIf<LinalgOpType>(b, options, f)`:
`return b ? tile<LinalgOpType>(options) : *this;` where the omitted filter
argument of `tile` takes its default `nullptr`. -/
def tileIf (self : CodegenStrategy E) (LinalgOpType : E.OpType) (b : Bool)
    (options : E.LinalgTilingOptions) (_f : Option E.FilterFunction) : CodegenStrategy E :=
  if b then self.tile LinalgOpType options none else self

/-- Method `tileIf<LinalgOpType>(b, opName, options, f)`:
`return b ? tile<LinalgOpType>(opName, options) : *this;`. -/
def tileIfNamed (self : CodegenStrategy E) (LinalgOpType : E.OpType) (b : Bool)
    (opName : String) (options : E.LinalgTilingOptions) (_f : Option E.FilterFunction) :
    CodegenStrategy E :=
  if b then self.tileNamed LinalgOpType opName options none else self

/-- Method `promote<LinalgOpType>(options, f)`. -/
def promote (self : CodegenStrategy E) (LinalgOpType : E.OpType)
    (options : E.LinalgPromotionOptions) (f : Option E.FilterFunction) : CodegenStrategy E :=
  { self with transformationSequence :=
      self.transformationSequence ++
        [Transformation.Promote (Promote.create LinalgOpType options f)] }

/-- Method `promote<LinalgOpType>(opName, options, f)`. -/
def promoteNamed (self : CodegenStrategy E) (LinalgOpType : E.OpType) (opName : String)
    (options : E.LinalgPromotionOptions) (f : Option E.FilterFunction) : CodegenStrategy E :=
  { self with transformationSequence :=
      self.transformationSequence ++
        [Transformation.Promote (Promote.createNamed LinalgOpType opName options f)] }

/-- Method `promoteIf<LinalgOpType>(b, opName, options, f)`:
`return b ? promote<LinalgOpType>(opName, options, f) : *this;`. -/
def promoteIfNamed (self : CodegenStrategy E) (LinalgOpType : E.OpType) (b : Bool)
    (opName : String) (options : E.LinalgPromotionOptions) (f : Option E.FilterFunction) :
    CodegenStrategy E :=
  if b then self.promoteNamed LinalgOpType opName options f else self

/-- Method `promoteIf<LinalgOpType>(b, options, f)`:
`return b ? promote<LinalgOpType>(options, f) : *this;`. -/
def promoteIf (self : CodegenStrategy E) (LinalgOpType : E.OpType) (b : Bool)
    (options : E.LinalgPromotionOptions) (f : Option E.FilterFunction) : CodegenStrategy E :=
  if b then self.promote LinalgOpType options f else self

/-- Method `vectorize<LinalgOpType>(f)`: the stage is built with
`linalg::LinalgVectorizationOptions()`. -/
def vectorize (self : CodegenStrategy E) (LinalgOpType : E.OpType)
    (f : Option E.FilterFunction) : CodegenStrategy E :=
  { self with transformationSequence :=
      self.transformationSequence ++
        [Transformation.Vectorize
          (Vectorize.create LinalgOpType E.defaultLinalgVectorizationOptions f)] }

/-- Method `vectorize<LinalgOpType>(opName, f)`. -/
def vectorizeNamed (self : CodegenStrategy E) (LinalgOpType : E.OpType) (opName : String)
    (f : Option E.FilterFunction) : CodegenStrategy E :=
  { self with transformationSequence :=
      self.transformationSequence ++
        [Transformation.Vectorize
          (Vectorize.createNamed LinalgOpType opName E.defaultLinalgVectorizationOptions f)] }

/-- Method `vectorizeIf<LinalgOpType>(b, f)`:
`return b ? vectorize<LinalgOpType>(f) : *this;`. -/
def vectorizeIf (self : CodegenStrategy E) (LinalgOpType : E.OpType) (b : Bool)
    (f : Option E.FilterFunction) : CodegenStrategy E :=
  if b then self.vectorize LinalgOpType f else self

/-- Method `vectorizeIf<LinalgOpType>(b, opName, f)`:
`return b ? vectorize<LinalgOpType>(opName, f) : *this;`. -/
def vectorizeIfNamed (self : CodegenStrategy E) (LinalgOpType : E.OpType) (b : Bool)
    (opName : String) (f : Option E.FilterFunction) : CodegenStrategy E :=
  if b then self.vectorizeNamed LinalgOpType opName f else self

/-- Method `setVectorTransformsOptions(options)`. -/
def setVectorTransformsOptions (self : CodegenStrategy E)
    (options : E.VectorTransformsOptions) : CodegenStrategy E :=
  { self with vectorTransformsOptions := options }

/-- Method `setVectorTransferToSCFOptions(options)`. -/
def setVectorTransferToSCFOptions (self : CodegenStrategy E)
    (options : E.VectorTransferToSCFOptions) : CodegenStrategy E :=
  { self with vectorToSCFOptions := options }

/-- Method `setHoistInvariantCode(enableLICM)`. -/
def setHoistInvariantCode (self : CodegenStrategy E) (enableLICM : Bool) :
    CodegenStrategy E :=
  { self with enableLICM := enableLICM }

end CodegenStrategy

/-- One call of an unconditional stage-appending builder method, with its
arguments. -/
inductive StageCall (E : Externals) where
  | tile (LinalgOpType : E.OpType) (options : E.LinalgTilingOptions)
      (f : Option E.FilterFunction)
  | tileNamed (LinalgOpType : E.OpType) (opName : String) (options : E.LinalgTilingOptions)
      (f : Option E.FilterFunction)
  | promote (LinalgOpType : E.OpType) (options : E.LinalgPromotionOptions)
      (f : Option E.FilterFunction)
  | promoteNamed (LinalgOpType : E.OpType) (opName : String)
      (options : E.LinalgPromotionOptions) (f : Option E.FilterFunction)
  | vectorize (LinalgOpType : E.OpType) (f : Option E.FilterFunction)
  | vectorizeNamed (LinalgOpType : E.OpType) (opName : String)
      (f : Option E.FilterFunction)

namespace StageCall

variable {E : Externals}

/-- Performs the call on a strategy. -/
def apply (c : StageCall E) (s : CodegenStrategy E) : CodegenStrategy E :=
  match c with
  | .tile op options f => s.tile op options f
  | .tileNamed op opName options f => s.tileNamed op opName options f
  | .promote op options f => s.promote op options f
  | .promoteNamed op opName options f => s.promoteNamed op opName options f
  | .vectorize op f => s.vectorize op f
  | .vectorizeNamed op opName f => s.vectorizeNamed op opName f

/-- Performs the conditional variant of the call (`tileIf`, `promoteIf`,
`vectorizeIf`) with condition `b` and the same remaining arguments. -/
def applyIf (b : Bool) (c : StageCall E) (s : CodegenStrategy E) : CodegenStrategy E :=
  match c with
  | .tile op options f => s.tileIf op b options f
  | .tileNamed op opName options f => s.tileIfNamed op b opName options f
  | .promote op options f => s.promoteIf op b options f
  | .promoteNamed op opName options f => s.promoteIfNamed op b opName options f
  | .vectorize op f => s.vectorizeIf op b f
  | .vectorizeNamed op opName f => s.vectorizeIfNamed op b opName f

/-- The stage the specification expects the call to append: the variant named by
the method, carrying the op type, name, options and filter of the call. A call
without a name carries the empty name, and a `vectorize` call carries
`LinalgVectorizationOptions()`. -/
def expectedStage (c : StageCall E) : Transformation E :=
  match c with
  | .tile op options f =>
    Transformation.Tile
      { LinalgOpType := op, filter := f, opName := "", options := options }
  | .tileNamed op opName options f =>
    Transformation.Tile
      { LinalgOpType := op, filter := f, opName := opName, options := options }
  | .promote op options f =>
    Transformation.Promote
      { LinalgOpType := op, filter := f, opName := "", options := options }
  | .promoteNamed op opName options f =>
    Transformation.Promote
      { LinalgOpType := op, filter := f, opName := opName, options := options }
  | .vectorize op f =>
    Transformation.Vectorize
      { LinalgOpType := op, filter := f, opName := "",
        options := E.defaultLinalgVectorizationOptions }
  | .vectorizeNamed op opName f =>
    Transformation.Vectorize
      { LinalgOpType := op, filter := f, opName := opName,
        options := E.defaultLinalgVectorizationOptions }

end StageCall

/-- One call of any public builder method of `CodegenStrategy`. -/
inductive BuilderCall (E : Externals) where
  | append (c : StageCall E)
  | appendIf (b : Bool) (c : StageCall E)
  | setVectorTransformsOptions (options : E.VectorTransformsOptions)
  | setVectorTransferToSCFOptions (options : E.VectorTransferToSCFOptions)
  | setHoistInvariantCode (enableLICM : Bool)

namespace BuilderCall

variable {E : Externals}

/-- Performs the call on a strategy. -/
def apply (c : BuilderCall E) (s : CodegenStrategy E) : CodegenStrategy E :=
  match c with
  | .append sc => sc.apply s
  | .appendIf b sc => sc.applyIf b s
  | .setVectorTransformsOptions options => s.setVectorTransformsOptions options
  | .setVectorTransferToSCFOptions options => s.setVectorTransferToSCFOptions options
  | .setHoistInvariantCode enableLICM => s.setHoistInvariantCode enableLICM

/-- Performs a chain of calls, first call first. -/
def run (calls : List (BuilderCall E)) (s : CodegenStrategy E) : CodegenStrategy E :=
  calls.foldl (fun acc c => c.apply acc) s

/-- Whether the call is `setHoistInvariantCode(v)`. -/
def isSetHoist (v : Bool) : BuilderCall E → Bool
  | .setHoistInvariantCode w => w == v
  | _ => false

end BuilderCall

/-- Performs a chain of unconditional stage-appending calls, first call first. -/
def StageCall.run {E : Externals} (calls : List (StageCall E)) (s : CodegenStrategy E) :
    CodegenStrategy E :=
  calls.foldl (fun acc c => c.apply acc) s

/-- Two op types for concrete evaluation: `linalg::MatmulOp`, which has
`getOperationName()`, and the interface `linalg::LinalgOp`, which has none. -/
inductive DemoOp where
  | MatmulOp
  | LinalgOp
  deriving DecidableEq, Repr

/-- A concrete instance of the external declarations, with numbers standing for
options, contexts and filters. -/
@[reducible]
def demo : Externals where
  OpType := DemoOp
  getOperationName := fun t =>
    match t with
    | .MatmulOp => some "linalg.matmul"
    | .LinalgOp => none
  MLIRContext := Nat
  FilterFunction := Nat
  LinalgTransformationFilter := Nat
  LinalgTilingOptions := Nat
  LinalgPromotionOptions := Nat
  LinalgVectorizationOptions := Nat
  defaultLinalgVectorizationOptions := 0
  VectorTransformsOptions := Nat
  defaultVectorTransformsOptions := 0
  VectorTransferToSCFOptions := Nat
  defaultVectorTransferToSCFOptions := 0

/-- The op type a call names as its template argument. -/
def StageCall.opType {E : Externals} : StageCall E → E.OpType
  | .tile op _ _ => op
  | .tileNamed op _ _ _ => op
  | .promote op _ _ => op
  | .promoteNamed op _ _ _ => op
  | .vectorize op _ => op
  | .vectorizeNamed op _ _ => op

/-- The op name a call passes, empty when the call passes none. -/
def StageCall.opName {E : Externals} : StageCall E → String
  | .tile _ _ _ => ""
  | .tileNamed _ opName _ _ => opName
  | .promote _ _ _ => ""
  | .promoteNamed _ opName _ _ => opName
  | .vectorize _ _ => ""
  | .vectorizeNamed _ opName _ => opName

/-- The naming precondition in the specification's words: for an op type that
exposes its own name the stage has no explicit name or one equal to that name;
for an op type that exposes none an explicit name is supplied. -/
def namingPrecondition (E : Externals) (opType : E.OpType) (opName : String) : Prop :=
  match E.getOperationName opType with
  | some ownName => opName = "" ∨ opName = ownName
  | none => opName ≠ ""

/-- The naming precondition can be computed. -/
instance namingPrecondition.decidable (E : Externals) (opType : E.OpType)
    (opName : String) : Decidable (namingPrecondition E opType opName) :=
  match h : E.getOperationName opType with
  | some ownName =>
    decidable_of_iff (opName = "" ∨ opName = ownName) (by simp [namingPrecondition, h])
  | none => decidable_of_iff (opName ≠ "") (by simp [namingPrecondition, h])

/-- Modelled from the spec: the name under which the constructor of a
`Linalg*Pattern<Op>` (declared in `Transforms.h`, absent here) registers the rule.
With no explicit name it is derived from the op type's own name, otherwise it is
the explicit name. -/
def LinalgPatternArgs.registeredName {E : Externals} {OptionsType : Type}
    (args : LinalgPatternArgs E OptionsType) : Option String :=
  match args.opName with
  | some name => some name
  | none => E.getOperationName args.opType

/-- Modelled from the spec: the benefit a `Linalg*Pattern` constructor of
`Transforms.h` (absent here) uses when the caller passes none. The specification
only places it below the forwarding rules' weight 2; the value is 1. -/
def defaultBenefit : Nat := 1

/-- The benefit of a rule of a pattern list: the default for a rule that
`sfinae_enqueue` built, the stored one for a forwarding rule. -/
def RewritePattern.benefit {E : Externals} : RewritePattern E → Nat
  | .LinalgTilingPattern _ => defaultBenefit
  | .LinalgPromotionPattern _ => defaultBenefit
  | .LinalgVectorizationPattern _ => defaultBenefit
  | .LinalgCopyVTRForwardingPattern _ benefit => benefit
  | .LinalgCopyVTWForwardingPattern _ benefit => benefit

/-- The type `LogicalResult`. -/
inductive LogicalResult where
  | success
  | failure
  deriving DecidableEq, Repr

/-- Modelled from the spec: the external collaborators of the execution phase
(spec section 6), over a type `FuncOp` of function states. The definition of
`CodegenStrategy::transform` lives in a source file that is absent; only its
declaration is in the header. Each fallible collaborator returns its result and
the function state it leaves behind. -/
structure Collaborators (E : Externals) (FuncOp : Type) where
  /-- The function's current defining context. -/
  getContext : FuncOp → E.MLIRContext
  /-- The filter handed to the stage at a position, from the stage's own filter
  function. -/
  stageFilter : Nat → Option E.FilterFunction → E.LinalgTransformationFilter
  /-- Exhaustive application of a rule set to the function. -/
  applyPatterns : OwningRewritePatternList E → FuncOp → LogicalResult × FuncOp
  /-- The local canonicalization run after every stage. -/
  canonicalize : FuncOp → LogicalResult × FuncOp
  /-- The vector-transform-options rewrite. -/
  lowerVectorTransforms : E.VectorTransformsOptions → FuncOp → LogicalResult × FuncOp
  /-- The vector-memory-transfer-to-loop conversion. -/
  lowerVectorTransfers : E.VectorTransferToSCFOptions → FuncOp → LogicalResult × FuncOp
  /-- Hoisting of loop-invariant code. -/
  hoistInvariantCode : FuncOp → FuncOp

/-- Modelled from the spec: one step of the execution of section 4.6. -/
inductive Step (E : Externals) where
  | applyStage (position : Nat) (t : Transformation E)
  | canonicalize
  | lowerVectorTransforms (options : E.VectorTransformsOptions)
  | lowerVectorTransfers (options : E.VectorTransferToSCFOptions)
  | hoistInvariantCode

/-- Modelled from the spec: running one step. A stage step builds the stage's rule
set with the function's context and applies it exhaustively; `none` is the failed
assertion of `sfinae_enqueue`. Hoisting reports no failure. -/
def Step.exec {E : Externals} {FuncOp : Type} (x : Collaborators E FuncOp) :
    Step E → FuncOp → Option (LogicalResult × FuncOp)
  | .applyStage position t, func =>
    match t.buildRewritePatterns (x.getContext func) (x.stageFilter position t.filter) with
    | some built => some (x.applyPatterns built.2 func)
    | none => none
  | .canonicalize, func => some (x.canonicalize func)
  | .lowerVectorTransforms options, func => some (x.lowerVectorTransforms options func)
  | .lowerVectorTransfers options, func => some (x.lowerVectorTransfers options func)
  | .hoistInvariantCode, func => some (LogicalResult.success, x.hoistInvariantCode func)

/-- Modelled from the spec: the steps of one stage list from a position on, each
stage followed by the canonicalization (section 4.6, steps 1 to 3). -/
def stageSteps {E : Externals} : Nat → List (Transformation E) → List (Step E)
  | _, [] => []
  | position, t :: rest =>
    Step.applyStage position t :: Step.canonicalize :: stageSteps (position + 1) rest

/-- Modelled from the spec: the whole pipeline of a strategy, the stage steps in
list order, then the two lowerings, then hoisting if `enableLICM` (section 4.6,
steps 1 to 6). -/
def CodegenStrategy.steps {E : Externals} (s : CodegenStrategy E) : List (Step E) :=
  stageSteps 0 s.transformationSequence ++
    [Step.lowerVectorTransforms s.vectorTransformsOptions,
     Step.lowerVectorTransfers s.vectorToSCFOptions] ++
    (if s.enableLICM then [Step.hoistInvariantCode] else [])

/-- Modelled from the spec: fail-fast execution of a list of steps (section 7): the
first step that reports failure ends the run with that failure and the function
state that step left. -/
def runSteps {E : Externals} {FuncOp : Type} (x : Collaborators E FuncOp) :
    List (Step E) → FuncOp → Option (LogicalResult × FuncOp)
  | [], func => some (LogicalResult.success, func)
  | st :: rest, func =>
    match st.exec x func with
    | none => none
    | some (LogicalResult.failure, func1) => some (LogicalResult.failure, func1)
    | some (LogicalResult.success, func1) => runSteps x rest func1

/-- Modelled from the spec: the result the pipeline of a strategy computes. -/
def CodegenStrategy.pipelineResult {E : Externals} {FuncOp : Type} (s : CodegenStrategy E)
    (x : Collaborators E FuncOp) (func : FuncOp) : Option LogicalResult :=
  (runSteps x s.steps func).map Prod.fst

/-- Method `void transform(FuncOp func) const`. The declared return type is
`void`: the caller receives the transformed function and no result. The body is
modelled from the spec (the pipeline above), its definition being absent. -/
def CodegenStrategy.transform {E : Externals} {FuncOp : Type} (s : CodegenStrategy E)
    (x : Collaborators E FuncOp) (func : FuncOp) : Option FuncOp :=
  (runSteps x s.steps func).map Prod.snd

/-- Collaborators over numbers that leave the function untouched and all succeed. -/
def demoCollaborators : Collaborators demo Nat where
  getContext := fun _ => 0
  stageFilter := fun position _ => position
  applyPatterns := fun _ func => (LogicalResult.success, func)
  canonicalize := fun func => (LogicalResult.success, func)
  lowerVectorTransforms := fun _ func => (LogicalResult.success, func)
  lowerVectorTransfers := fun _ func => (LogicalResult.success, func)
  hoistInvariantCode := fun func => func

/-- Collaborators as `demoCollaborators`, except that the vector-transform
lowering reports failure. -/
def demoFailingCollaborators : Collaborators demo Nat where
  getContext := fun _ => 0
  stageFilter := fun position _ => position
  applyPatterns := fun _ func => (LogicalResult.success, func)
  canonicalize := fun func => (LogicalResult.success, func)
  lowerVectorTransforms := fun _ func => (LogicalResult.failure, func)
  lowerVectorTransfers := fun _ func => (LogicalResult.success, func)
  hoistInvariantCode := fun func => func

/-! Builder methods: appending, conditional appending, setters. -/

section builder

variable {E : Externals}

theorem StageCall.apply_eq (c : StageCall E) (s : CodegenStrategy E) :
    c.apply s =
      { s with transformationSequence := s.transformationSequence ++ [c.expectedStage] } := by
  cases c <;> rfl

theorem StageCall.run_eq (calls : List (StageCall E)) (s : CodegenStrategy E) :
    StageCall.run calls s =
      { s with transformationSequence :=
          s.transformationSequence ++ calls.map StageCall.expectedStage } := by
  induction calls generalizing s with
  | nil => simp [StageCall.run]
  | cons c rest ih =>
    have h := ih (c.apply s)
    simp only [StageCall.run, List.foldl_cons] at h ⊢
    rw [h, StageCall.apply_eq]
    simp

/-- C1. Each unconditional builder call (`tile`, `promote`, `vectorize`, with or
without an op name) leaves the previous stages in place and appends one stage of
the method's variant carrying the call's name, options and filter. Hence after a
chain of such calls the sequence is the old one followed by the calls' stages in
call order, its length grows by the number of calls (and equals it when the chain
starts from a fresh strategy), and the three post-processing settings are
untouched. -/
theorem stage_calls_append_in_order (s : CodegenStrategy E) (calls : List (StageCall E)) :
    (∀ c : StageCall E,
        (c.apply s).transformationSequence = s.transformationSequence ++ [c.expectedStage]) ∧
    (StageCall.run calls s).transformationSequence =
        s.transformationSequence ++ calls.map StageCall.expectedStage ∧
    (StageCall.run calls s).transformationSequence.length =
        s.transformationSequence.length + calls.length ∧
    (StageCall.run calls (CodegenStrategy.fresh E)).transformationSequence =
        calls.map StageCall.expectedStage ∧
    (StageCall.run calls (CodegenStrategy.fresh E)).transformationSequence.length =
        calls.length ∧
    (StageCall.run calls s).vectorTransformsOptions = s.vectorTransformsOptions ∧
    (StageCall.run calls s).vectorToSCFOptions = s.vectorToSCFOptions ∧
    (StageCall.run calls s).enableLICM = s.enableLICM := by
  refine ⟨fun c => by rw [StageCall.apply_eq], ?_, ?_, ?_, ?_, ?_, ?_, ?_⟩ <;>
    simp [StageCall.run_eq, CodegenStrategy.fresh]

/-- The conditional call with a true condition is the unconditional call, except
that `tileIf` does not forward its filter: the stage it appends has a null filter. -/
theorem StageCall.applyIf_true (c : StageCall E) (s : CodegenStrategy E) :
    c.applyIf true s =
      match c with
      | .tile op options _ => (StageCall.tile op options none).apply s
      | .tileNamed op opName options _ => (StageCall.tileNamed op opName options none).apply s
      | other => other.apply s := by
  cases c <;> rfl

/-- C2 at a failing input. On a fresh strategy, `tileIf<MatmulOp>(true, 7, f)` with
the non-null filter `f = 1` appends a `Tile` stage whose filter is null, whereas
`tile<MatmulOp>(7, f)` appends one that carries `f`; the two strategies differ.
The same holds for the overload with an op name. -/
theorem tileIf_true_drops_filter :
    ((CodegenStrategy.fresh demo).tileIf DemoOp.MatmulOp true 7 (some 1)).transformationSequence
      = [Transformation.Tile
          { LinalgOpType := DemoOp.MatmulOp, filter := none, opName := "", options := 7 }] ∧
    ((CodegenStrategy.fresh demo).tile DemoOp.MatmulOp 7 (some 1)).transformationSequence
      = [Transformation.Tile
          { LinalgOpType := DemoOp.MatmulOp, filter := some 1, opName := "", options := 7 }] ∧
    (CodegenStrategy.fresh demo).tileIf DemoOp.MatmulOp true 7 (some 1)
      ≠ (CodegenStrategy.fresh demo).tile DemoOp.MatmulOp 7 (some 1) ∧
    (CodegenStrategy.fresh demo).tileIfNamed DemoOp.MatmulOp true "linalg.matmul" 7 (some 1)
      ≠ (CodegenStrategy.fresh demo).tileNamed DemoOp.MatmulOp "linalg.matmul" 7 (some 1) := by
  refine ⟨rfl, rfl, ?_, ?_⟩ <;>
    simp [CodegenStrategy.tileIf, CodegenStrategy.tile, CodegenStrategy.tileIfNamed,
      CodegenStrategy.tileNamed, CodegenStrategy.fresh, Tile.create, Tile.createNamed]

/-- C3. Every conditional builder (`tileIf`, `promoteIf`, `vectorizeIf`, with or
without an op name) called with a false condition returns the strategy unchanged:
same stage sequence, same length, same three settings. -/
theorem conditional_false_is_identity (c : StageCall E) (s : CodegenStrategy E) :
    c.applyIf false s = s ∧
    (c.applyIf false s).transformationSequence = s.transformationSequence ∧
    (c.applyIf false s).transformationSequence.length = s.transformationSequence.length ∧
    (c.applyIf false s).vectorTransformsOptions = s.vectorTransformsOptions ∧
    (c.applyIf false s).vectorToSCFOptions = s.vectorToSCFOptions ∧
    (c.applyIf false s).enableLICM = s.enableLICM := by
  have h : c.applyIf false s = s := by cases c <;> rfl
  simp [h]

/-- C8. Each setter stores its argument in its own field and leaves the stage
sequence and the two other settings as they were; no value is rejected, and of two
calls of the same setter the second one wins. -/
theorem setters_change_only_their_field (s : CodegenStrategy E)
    (vt vt2 : E.VectorTransformsOptions) (sc sc2 : E.VectorTransferToSCFOptions)
    (b b2 : Bool) :
    ((s.setVectorTransformsOptions vt).vectorTransformsOptions = vt ∧
      (s.setVectorTransformsOptions vt).vectorToSCFOptions = s.vectorToSCFOptions ∧
      (s.setVectorTransformsOptions vt).transformationSequence = s.transformationSequence ∧
      (s.setVectorTransformsOptions vt).enableLICM = s.enableLICM ∧
      (s.setVectorTransformsOptions vt).setVectorTransformsOptions vt2
        = s.setVectorTransformsOptions vt2) ∧
    ((s.setVectorTransferToSCFOptions sc).vectorToSCFOptions = sc ∧
      (s.setVectorTransferToSCFOptions sc).vectorTransformsOptions
        = s.vectorTransformsOptions ∧
      (s.setVectorTransferToSCFOptions sc).transformationSequence
        = s.transformationSequence ∧
      (s.setVectorTransferToSCFOptions sc).enableLICM = s.enableLICM ∧
      (s.setVectorTransferToSCFOptions sc).setVectorTransferToSCFOptions sc2
        = s.setVectorTransferToSCFOptions sc2) ∧
    ((s.setHoistInvariantCode b).enableLICM = b ∧
      (s.setHoistInvariantCode b).vectorTransformsOptions = s.vectorTransformsOptions ∧
      (s.setHoistInvariantCode b).vectorToSCFOptions = s.vectorToSCFOptions ∧
      (s.setHoistInvariantCode b).transformationSequence = s.transformationSequence ∧
      (s.setHoistInvariantCode b).setHoistInvariantCode b2 = s.setHoistInvariantCode b2) :=
  ⟨⟨rfl, rfl, rfl, rfl, rfl⟩, ⟨rfl, rfl, rfl, rfl, rfl⟩, ⟨rfl, rfl, rfl, rfl, rfl⟩⟩

/-- The effect of one builder call on `enableLICM`. -/
theorem BuilderCall.apply_enableLICM (c : BuilderCall E) (s : CodegenStrategy E) :
    (c.apply s).enableLICM =
      match c with
      | .setHoistInvariantCode v => v
      | _ => s.enableLICM := by
  cases c with
  | append sc => cases sc <;> rfl
  | appendIf b sc => cases b <;> cases sc <;> rfl
  | setVectorTransformsOptions o => rfl
  | setVectorTransferToSCFOptions o => rfl
  | setHoistInvariantCode v => rfl

theorem BuilderCall.run_cons (c : BuilderCall E) (rest : List (BuilderCall E))
    (s : CodegenStrategy E) :
    BuilderCall.run (c :: rest) s = BuilderCall.run rest (c.apply s) := rfl

theorem BuilderCall.run_append (pre post : List (BuilderCall E)) (s : CodegenStrategy E) :
    BuilderCall.run (pre ++ post) s = BuilderCall.run post (BuilderCall.run pre s) := by
  simp [BuilderCall.run, List.foldl_append]

/-- A chain without `setHoistInvariantCode(true)` keeps a false `enableLICM` false. -/
theorem BuilderCall.run_keeps_false (calls : List (BuilderCall E)) (s : CodegenStrategy E)
    (hs : s.enableLICM = false)
    (h : ∀ c ∈ calls, BuilderCall.isSetHoist true c = false) :
    (BuilderCall.run calls s).enableLICM = false := by
  induction calls generalizing s with
  | nil => simpa [BuilderCall.run] using hs
  | cons c rest ih =>
    rw [BuilderCall.run_cons]
    apply ih
    · rw [BuilderCall.apply_enableLICM]
      have hc := h c (List.mem_cons_self _ _)
      cases c with
      | setHoistInvariantCode v => cases v <;> simp_all [BuilderCall.isSetHoist]
      | _ => simpa using hs
    · intro d hd
      exact h d (List.mem_cons_of_mem _ hd)

/-- A chain that ends with `enableLICM` false either started with it false and has
no `setHoistInvariantCode(true)`, or has a `setHoistInvariantCode(false)` with no
`setHoistInvariantCode(true)` after it. -/
theorem BuilderCall.run_false_cases (calls : List (BuilderCall E)) (s : CodegenStrategy E)
    (h : (BuilderCall.run calls s).enableLICM = false) :
    (s.enableLICM = false ∧ ∀ c ∈ calls, BuilderCall.isSetHoist true c = false) ∨
    ∃ pre post, calls = pre ++ BuilderCall.setHoistInvariantCode false :: post ∧
      ∀ c ∈ post, BuilderCall.isSetHoist true c = false := by
  induction calls generalizing s with
  | nil => exact Or.inl ⟨by simpa [BuilderCall.run] using h, by simp⟩
  | cons c rest ih =>
    rw [BuilderCall.run_cons] at h
    rcases ih (c.apply s) h with ⟨h1, h2⟩ | ⟨pre, post, hsplit, hpost⟩
    · rw [BuilderCall.apply_enableLICM] at h1
      cases c with
      | setHoistInvariantCode v =>
        right
        refine ⟨[], rest, ?_, h2⟩
        simp only at h1
        simp [h1]
      | append sc =>
        left
        refine ⟨by simpa using h1, ?_⟩
        intro d hd
        rcases List.mem_cons.1 hd with rfl | hd
        · rfl
        · exact h2 d hd
      | appendIf b sc =>
        left
        refine ⟨by simpa using h1, ?_⟩
        intro d hd
        rcases List.mem_cons.1 hd with rfl | hd
        · rfl
        · exact h2 d hd
      | setVectorTransformsOptions o =>
        left
        refine ⟨by simpa using h1, ?_⟩
        intro d hd
        rcases List.mem_cons.1 hd with rfl | hd
        · rfl
        · exact h2 d hd
      | setVectorTransferToSCFOptions o =>
        left
        refine ⟨by simpa using h1, ?_⟩
        intro d hd
        rcases List.mem_cons.1 hd with rfl | hd
        · rfl
        · exact h2 d hd
    · right
      exact ⟨c :: pre, post, by simp [hsplit], hpost⟩

/-- C9. A fresh strategy has no stage and `enableLICM = true`. Starting from it,
a chain of builder calls without any `setHoistInvariantCode` (stage-appending
calls, conditional calls, the two options setters) leaves `enableLICM` true, and
after an arbitrary chain `enableLICM` is false exactly when the chain contains a
`setHoistInvariantCode(false)` that no `setHoistInvariantCode(true)` follows. -/
theorem enableLICM_default_and_changes (calls : List (BuilderCall E)) :
    (CodegenStrategy.fresh E).transformationSequence = [] ∧
    (CodegenStrategy.fresh E).enableLICM = true ∧
    ((∀ c ∈ calls, ∀ v, BuilderCall.isSetHoist v c = false) →
      (BuilderCall.run calls (CodegenStrategy.fresh E)).enableLICM = true) ∧
    ((BuilderCall.run calls (CodegenStrategy.fresh E)).enableLICM = false ↔
      ∃ pre post, calls = pre ++ BuilderCall.setHoistInvariantCode false :: post ∧
        ∀ c ∈ post, BuilderCall.isSetHoist true c = false) := by
  refine ⟨rfl, rfl, ?_, ?_, ?_⟩
  · intro hno
    by_contra hne
    have hf : (BuilderCall.run calls (CodegenStrategy.fresh E)).enableLICM = false := by
      simpa using hne
    rcases BuilderCall.run_false_cases calls _ hf with ⟨h1, _⟩ | ⟨pre, post, hsplit, _⟩
    · simp [CodegenStrategy.fresh] at h1
    · have hmem : BuilderCall.setHoistInvariantCode false ∈ calls := by
        rw [hsplit]; simp
      have := hno _ hmem false
      simp [BuilderCall.isSetHoist] at this
  · intro hf
    rcases BuilderCall.run_false_cases calls _ hf with ⟨h1, _⟩ | h
    · simp [CodegenStrategy.fresh] at h1
    · exact h
  · rintro ⟨pre, post, hsplit, hpost⟩
    rw [hsplit, BuilderCall.run_append, BuilderCall.run_cons]
    exact BuilderCall.run_keeps_false post _ rfl hpost

end builder

/-! Name resolution in `sfinae_enqueue` and the rule sets of the stages. -/

section stages

variable {E : Externals}

/-- The overload of `sfinae_enqueue` for an op type with its own name. -/
theorem sfinae_enqueue_of_some {OptionsType : Type}
    (PatternType : LinalgPatternArgs E OptionsType → RewritePattern E)
    (op : E.OpType) (pl : OwningRewritePatternList E) (options : OptionsType)
    (context : E.MLIRContext) (opName : String) (m : E.LinalgTransformationFilter)
    (ownName : String) (h : E.getOperationName op = some ownName) :
    sfinae_enqueue PatternType op pl options context opName m =
      if opName = "" ∨ opName = ownName then
        some (pl ++ [PatternType ⟨op, none, context, options, m⟩])
      else none := by
  simp only [sfinae_enqueue, h]
  by_cases h1 : opName = "" <;> by_cases h2 : opName = ownName <;>
    simp [h1, h2, String.isEmpty_iff]

/-- The overload of `sfinae_enqueue` for an op type without its own name. -/
theorem sfinae_enqueue_of_none {OptionsType : Type}
    (PatternType : LinalgPatternArgs E OptionsType → RewritePattern E)
    (op : E.OpType) (pl : OwningRewritePatternList E) (options : OptionsType)
    (context : E.MLIRContext) (opName : String) (m : E.LinalgTransformationFilter)
    (h : E.getOperationName op = none) :
    sfinae_enqueue PatternType op pl options context opName m =
      if opName ≠ "" then
        some (pl ++ [PatternType ⟨op, some opName, context, options, m⟩])
      else none := by
  simp only [sfinae_enqueue, h]
  by_cases h1 : opName = "" <;> simp [h1, String.isEmpty_iff]

/-- The assertion of `sfinae_enqueue` holds exactly under the naming precondition. -/
theorem sfinae_enqueue_eq_none_iff {OptionsType : Type}
    (PatternType : LinalgPatternArgs E OptionsType → RewritePattern E)
    (op : E.OpType) (pl : OwningRewritePatternList E) (options : OptionsType)
    (context : E.MLIRContext) (opName : String) (m : E.LinalgTransformationFilter) :
    sfinae_enqueue PatternType op pl options context opName m = none ↔
      ¬ namingPrecondition E op opName := by
  cases h : E.getOperationName op with
  | some ownName =>
    rw [sfinae_enqueue_of_some PatternType op pl options context opName m ownName h]
    simp only [namingPrecondition, h]
    by_cases hc : opName = "" ∨ opName = ownName <;> simp [hc]
  | none =>
    rw [sfinae_enqueue_of_none PatternType op pl options context opName m h]
    simp only [namingPrecondition, h]
    by_cases hc : opName = "" <;> simp [hc]

/-- C5. For an op type with its own operation name the check of `sfinae_enqueue`
passes exactly when the stage's name is empty or equal to that name, and the rule
it then appends is built without a name and registered under the op type's own
name. For an op type without a name the check passes exactly when the stage's name
is non-empty, and the appended rule is registered under that name. -/
theorem sfinae_enqueue_accepts_exactly_permitted_names {OptionsType : Type}
    (PatternType : LinalgPatternArgs E OptionsType → RewritePattern E)
    (op : E.OpType) (pl : OwningRewritePatternList E) (options : OptionsType)
    (context : E.MLIRContext) (opName : String) (m : E.LinalgTransformationFilter) :
    (∀ ownName, E.getOperationName op = some ownName →
      ((sfinae_enqueue PatternType op pl options context opName m).isSome ↔
        (opName = "" ∨ opName = ownName)) ∧
      ∀ result, sfinae_enqueue PatternType op pl options context opName m = some result →
        ∃ args : LinalgPatternArgs E OptionsType,
          result = pl ++ [PatternType args] ∧ args.opType = op ∧ args.opName = none ∧
          args.registeredName = some ownName) ∧
    (E.getOperationName op = none →
      ((sfinae_enqueue PatternType op pl options context opName m).isSome ↔ opName ≠ "") ∧
      ∀ result, sfinae_enqueue PatternType op pl options context opName m = some result →
        ∃ args : LinalgPatternArgs E OptionsType,
          result = pl ++ [PatternType args] ∧ args.opType = op ∧
          args.registeredName = some opName) := by
  constructor
  · intro ownName h
    rw [sfinae_enqueue_of_some PatternType op pl options context opName m ownName h]
    by_cases hc : opName = "" ∨ opName = ownName
    · simp only [hc, if_true, Option.isSome_some, true_iff, Option.some.injEq]
      refine ⟨trivial, fun result hr => ⟨⟨op, none, context, options, m⟩, hr.symm, rfl, rfl, ?_⟩⟩
      simp [LinalgPatternArgs.registeredName, h]
    · simp [hc]
  · intro h
    rw [sfinae_enqueue_of_none PatternType op pl options context opName m h]
    by_cases hc : opName = ""
    · simp [hc]
    · simp only [ne_eq, hc, not_false_eq_true, if_true, Option.isSome_some, true_iff,
        Option.some.injEq]
      refine ⟨trivial, fun result hr => ⟨⟨op, some opName, context, options, m⟩, hr.symm, rfl, ?_⟩⟩
      simp [LinalgPatternArgs.registeredName]

/-- C5 evaluated: `MatmulOp` accepts the empty name and `linalg.matmul` and rejects
`linalg.copy`; `LinalgOp` accepts `linalg.copy` and rejects the empty name. -/
theorem sfinae_enqueue_accepts_exactly_permitted_names_witness :
    (sfinae_enqueue (E := demo) RewritePattern.LinalgTilingPattern DemoOp.MatmulOp [] 7 0
        "" 3).isSome = true ∧
    (sfinae_enqueue (E := demo) RewritePattern.LinalgTilingPattern DemoOp.MatmulOp [] 7 0
        "linalg.matmul" 3).isSome = true ∧
    (sfinae_enqueue (E := demo) RewritePattern.LinalgTilingPattern DemoOp.MatmulOp [] 7 0
        "linalg.copy" 3).isSome = false ∧
    (sfinae_enqueue (E := demo) RewritePattern.LinalgTilingPattern DemoOp.LinalgOp [] 7 0
        "linalg.copy" 3).isSome = true ∧
    (sfinae_enqueue (E := demo) RewritePattern.LinalgTilingPattern DemoOp.LinalgOp [] 7 0
        "" 3).isSome = false := by
  have hM := (sfinae_enqueue_accepts_exactly_permitted_names (E := demo)
    RewritePattern.LinalgTilingPattern DemoOp.MatmulOp [] 7 0 "linalg.copy" 3).1
      "linalg.matmul" rfl
  have hL := (sfinae_enqueue_accepts_exactly_permitted_names (E := demo)
    RewritePattern.LinalgTilingPattern DemoOp.LinalgOp [] 7 0 "" 3).2 rfl
  refine ⟨rfl, rfl, ?_, rfl, ?_⟩
  · have hno : ¬ (("linalg.copy" : String) = "" ∨ ("linalg.copy" : String) = "linalg.matmul") := by
      decide
    simpa using mt hM.1.1 hno
  · simpa using hL.1

/-- Under the naming precondition `sfinae_enqueue` appends one rule built from the
given op type, context, options and filter. -/
theorem sfinae_enqueue_of_precondition {OptionsType : Type}
    (PatternType : LinalgPatternArgs E OptionsType → RewritePattern E)
    (op : E.OpType) (pl : OwningRewritePatternList E) (options : OptionsType)
    (context : E.MLIRContext) (opName : String) (m : E.LinalgTransformationFilter)
    (h : namingPrecondition E op opName) :
    ∃ args : LinalgPatternArgs E OptionsType,
      sfinae_enqueue PatternType op pl options context opName m
        = some (pl ++ [PatternType args]) ∧
      args.opType = op ∧ args.context = context ∧ args.options = options ∧
      args.filter = m := by
  cases hn : E.getOperationName op with
  | some ownName =>
    rw [sfinae_enqueue_of_some PatternType op pl options context opName m ownName hn]
    simp only [namingPrecondition, hn] at h
    exact ⟨⟨op, none, context, options, m⟩, by simp [h], rfl, rfl, rfl, rfl⟩
  | none =>
    rw [sfinae_enqueue_of_none PatternType op pl options context opName m hn]
    simp only [namingPrecondition, hn] at h
    exact ⟨⟨op, some opName, context, options, m⟩, by simp [h], rfl, rfl, rfl, rfl⟩

/-- C10. For a `Tile` stage and a `Promote` stage whose names satisfy the naming
precondition, `buildRewritePatterns(context, m)` returns exactly one rule, the
tiling (promotion) rule for the stage's op type, built from the stage's options,
the given context and the given filter `m`. The stage after the call is the stage
before it, so a second call with the same arguments returns the same rule set. -/
theorem tile_promote_build_one_rule (t : Tile E) (p : Promote E)
    (context : E.MLIRContext) (m : E.LinalgTransformationFilter)
    (ht : namingPrecondition E t.LinalgOpType t.opName)
    (hp : namingPrecondition E p.LinalgOpType p.opName) :
    (∃ args : LinalgPatternArgs E E.LinalgTilingOptions,
      t.buildRewritePatterns context m = some (t, [RewritePattern.LinalgTilingPattern args]) ∧
      args.opType = t.LinalgOpType ∧ args.context = context ∧ args.options = t.options ∧
      args.filter = m ∧
      ∀ r, t.buildRewritePatterns context m = some r →
        r.1 = t ∧ r.1.buildRewritePatterns context m = some r) ∧
    (∃ args : LinalgPatternArgs E E.LinalgPromotionOptions,
      p.buildRewritePatterns context m
        = some (p, [RewritePattern.LinalgPromotionPattern args]) ∧
      args.opType = p.LinalgOpType ∧ args.context = context ∧ args.options = p.options ∧
      args.filter = m ∧
      ∀ r, p.buildRewritePatterns context m = some r →
        r.1 = p ∧ r.1.buildRewritePatterns context m = some r) := by
  constructor
  · obtain ⟨args, h, h1, h2, h3, h4⟩ := sfinae_enqueue_of_precondition
      RewritePattern.LinalgTilingPattern t.LinalgOpType [] t.options context t.opName m ht
    have hb : t.buildRewritePatterns context m
        = some (t, [RewritePattern.LinalgTilingPattern args]) := by
      simp [Tile.buildRewritePatterns, h]
    refine ⟨args, hb, h1, h2, h3, h4, ?_⟩
    intro r hr
    rw [hb] at hr
    cases hr
    exact ⟨rfl, hb⟩
  · obtain ⟨args, h, h1, h2, h3, h4⟩ := sfinae_enqueue_of_precondition
      RewritePattern.LinalgPromotionPattern p.LinalgOpType [] p.options context p.opName m hp
    have hb : p.buildRewritePatterns context m
        = some (p, [RewritePattern.LinalgPromotionPattern args]) := by
      simp [Promote.buildRewritePatterns, h]
    refine ⟨args, hb, h1, h2, h3, h4, ?_⟩
    intro r hr
    rw [hb] at hr
    cases hr
    exact ⟨rfl, hb⟩

/-- C10 at `Tile<MatmulOp>("linalg.matmul", 7)` and `Promote<LinalgOp>("linalg.copy", 9)`,
context 0 and filter 3: both names satisfy the precondition and each stage yields
one rule with its own options and the filter 3. -/
theorem tile_promote_build_one_rule_witness :
    namingPrecondition demo DemoOp.MatmulOp "linalg.matmul" ∧
    namingPrecondition demo DemoOp.LinalgOp "linalg.copy" ∧
    (∃ args : LinalgPatternArgs demo Nat,
      (Tile.createNamed (E := demo) DemoOp.MatmulOp "linalg.matmul" 7
          none).buildRewritePatterns 0 3
        = some (Tile.createNamed (E := demo) DemoOp.MatmulOp "linalg.matmul" 7 none,
            [RewritePattern.LinalgTilingPattern args]) ∧
      args.options = 7 ∧ args.filter = 3) ∧
    (∃ args : LinalgPatternArgs demo Nat,
      (Promote.createNamed (E := demo) DemoOp.LinalgOp "linalg.copy" 9
          none).buildRewritePatterns 0 3
        = some (Promote.createNamed (E := demo) DemoOp.LinalgOp "linalg.copy" 9 none,
            [RewritePattern.LinalgPromotionPattern args]) ∧
      args.options = 9 ∧ args.filter = 3) := by
  have hM : namingPrecondition demo DemoOp.MatmulOp "linalg.matmul" := by decide
  have hL : namingPrecondition demo DemoOp.LinalgOp "linalg.copy" := by decide
  obtain ⟨⟨a, ha, -, -, hao, haf, -⟩, ⟨b, hb, -, -, hbo, hbf, -⟩⟩ :=
    tile_promote_build_one_rule
      (Tile.createNamed (E := demo) DemoOp.MatmulOp "linalg.matmul" 7 none)
      (Promote.createNamed (E := demo) DemoOp.LinalgOp "linalg.copy" 9 none) 0 3 hM hL
  exact ⟨hM, hL, ⟨a, ha, hao, haf⟩, ⟨b, hb, hbo, hbf⟩⟩

/-- C6. For a `Vectorize` stage whose name satisfies the naming precondition,
`buildRewritePatterns(context, m)` returns exactly three rules: the vectorization
rule for the stage's op type, built from the stage's options and the filter `m`,
then the transfer-read and the transfer-write forwarding rules. Both forwarding
rules have benefit 2, above the benefit of the vectorization rule, and they are
built from the context alone: any other such stage `w` with any filter `m2` gets
the same two forwarding rules. -/
theorem vectorize_build_three_rules (v w : Vectorize E) (context : E.MLIRContext)
    (m m2 : E.LinalgTransformationFilter)
    (hv : namingPrecondition E v.LinalgOpType v.opName)
    (hw : namingPrecondition E w.LinalgOpType w.opName) :
    ∃ args args2 : LinalgPatternArgs E E.LinalgVectorizationOptions,
      v.buildRewritePatterns context m
        = some (v, [RewritePattern.LinalgVectorizationPattern args,
            RewritePattern.LinalgCopyVTRForwardingPattern context 2,
            RewritePattern.LinalgCopyVTWForwardingPattern context 2]) ∧
      args.opType = v.LinalgOpType ∧ args.context = context ∧ args.options = v.options ∧
      args.filter = m ∧
      (RewritePattern.LinalgCopyVTRForwardingPattern (E := E) context 2).benefit = 2 ∧
      (RewritePattern.LinalgCopyVTWForwardingPattern (E := E) context 2).benefit = 2 ∧
      (RewritePattern.LinalgVectorizationPattern args).benefit < 2 ∧
      w.buildRewritePatterns context m2
        = some (w, [RewritePattern.LinalgVectorizationPattern args2,
            RewritePattern.LinalgCopyVTRForwardingPattern context 2,
            RewritePattern.LinalgCopyVTWForwardingPattern context 2]) := by
  obtain ⟨args, h, h1, h2, h3, h4⟩ := sfinae_enqueue_of_precondition
    RewritePattern.LinalgVectorizationPattern v.LinalgOpType [] v.options context v.opName m hv
  obtain ⟨args2, h', -⟩ := sfinae_enqueue_of_precondition
    RewritePattern.LinalgVectorizationPattern w.LinalgOpType [] w.options context w.opName m2 hw
  refine ⟨args, args2, ?_, h1, h2, h3, h4, rfl, rfl, ?_, ?_⟩
  · simp [Vectorize.buildRewritePatterns, h]
  · simp [RewritePattern.benefit, defaultBenefit]
  · simp [Vectorize.buildRewritePatterns, h']

/-- C6 at `Vectorize<MatmulOp>` without a name (filter 3) and
`Vectorize<LinalgOp>("linalg.copy")` (filter 8), context 4: three rules each, with
the same two forwarding rules of benefit 2. -/
theorem vectorize_build_three_rules_witness :
    namingPrecondition demo DemoOp.MatmulOp "" ∧
    namingPrecondition demo DemoOp.LinalgOp "linalg.copy" ∧
    ∃ args args2 : LinalgPatternArgs demo Nat,
      (Vectorize.create (E := demo) DemoOp.MatmulOp 0 (some 5)).buildRewritePatterns 4 3
        = some (Vectorize.create (E := demo) DemoOp.MatmulOp 0 (some 5),
            [RewritePattern.LinalgVectorizationPattern args,
             RewritePattern.LinalgCopyVTRForwardingPattern 4 2,
             RewritePattern.LinalgCopyVTWForwardingPattern 4 2]) ∧
      args.filter = 3 ∧
      (RewritePattern.LinalgVectorizationPattern args).benefit < 2 ∧
      (Vectorize.createNamed (E := demo) DemoOp.LinalgOp "linalg.copy" 0
          none).buildRewritePatterns 4 8
        = some (Vectorize.createNamed (E := demo) DemoOp.LinalgOp "linalg.copy" 0 none,
            [RewritePattern.LinalgVectorizationPattern args2,
             RewritePattern.LinalgCopyVTRForwardingPattern 4 2,
             RewritePattern.LinalgCopyVTWForwardingPattern 4 2]) := by
  have hM : namingPrecondition demo DemoOp.MatmulOp "" := by decide
  have hL : namingPrecondition demo DemoOp.LinalgOp "linalg.copy" := by decide
  obtain ⟨a, b, ha, -, -, -, haf, -, -, hlt, hb⟩ :=
    vectorize_build_three_rules
      (Vectorize.create (E := demo) DemoOp.MatmulOp 0 (some 5))
      (Vectorize.createNamed (E := demo) DemoOp.LinalgOp "linalg.copy" 0 none) 4 3 8 hM hL
  exact ⟨hM, hL, a, b, ha, haf, hlt, hb⟩

/-- A stage's `buildRewritePatterns` fails exactly when its name violates the
naming precondition. -/
theorem Transformation.buildRewritePatterns_eq_none_iff (t : Transformation E)
    (context : E.MLIRContext) (m : E.LinalgTransformationFilter) :
    t.buildRewritePatterns context m = none ↔
      ¬ namingPrecondition E t.LinalgOpType t.opName := by
  cases t with
  | Tile t =>
    show _ ↔ ¬ namingPrecondition E t.LinalgOpType t.opName
    rw [← sfinae_enqueue_eq_none_iff RewritePattern.LinalgTilingPattern t.LinalgOpType []
      t.options context t.opName m]
    simp only [Transformation.buildRewritePatterns, Tile.buildRewritePatterns]
    cases sfinae_enqueue RewritePattern.LinalgTilingPattern t.LinalgOpType []
      t.options context t.opName m <;> simp
  | Promote p =>
    show _ ↔ ¬ namingPrecondition E p.LinalgOpType p.opName
    rw [← sfinae_enqueue_eq_none_iff RewritePattern.LinalgPromotionPattern p.LinalgOpType []
      p.options context p.opName m]
    simp only [Transformation.buildRewritePatterns, Promote.buildRewritePatterns]
    cases sfinae_enqueue RewritePattern.LinalgPromotionPattern p.LinalgOpType []
      p.options context p.opName m <;> simp
  | Vectorize v =>
    show _ ↔ ¬ namingPrecondition E v.LinalgOpType v.opName
    rw [← sfinae_enqueue_eq_none_iff RewritePattern.LinalgVectorizationPattern
      v.LinalgOpType [] v.options context v.opName m]
    simp only [Transformation.buildRewritePatterns, Vectorize.buildRewritePatterns]
    cases sfinae_enqueue RewritePattern.LinalgVectorizationPattern v.LinalgOpType []
      v.options context v.opName m <;> simp

/-- C4 refuted. The builder call `tile<MatmulOp>("linalg.copy", 7)` on a fresh
strategy succeeds and the strategy then holds the ill-named stage; so does
`tile<LinalgOp>(7)`, which omits the name of an op type that has none. The
failure comes only when `buildRewritePatterns` is called on the stage. -/
theorem ill_named_stage_is_held_by_strategy :
    ((CodegenStrategy.fresh demo).tileNamed DemoOp.MatmulOp "linalg.copy" 7
        none).transformationSequence
      = [Transformation.Tile (Tile.createNamed DemoOp.MatmulOp "linalg.copy" 7 none)] ∧
    (Tile.createNamed (E := demo) DemoOp.MatmulOp "linalg.copy" 7 none).buildRewritePatterns
        0 3 = none ∧
    ((CodegenStrategy.fresh demo).tile DemoOp.LinalgOp 7 none).transformationSequence
      = [Transformation.Tile (Tile.create DemoOp.LinalgOp 7 none)] ∧
    (Tile.create (E := demo) DemoOp.LinalgOp 7 none).buildRewritePatterns 0 3 = none :=
  ⟨rfl, rfl, rfl, rfl⟩

/-- C4 as amended. Constructing a stage and appending it with `tile`, `promote` or
`vectorize` performs no check: the call returns a strategy whose last stage is the
stage built from the call's arguments. When the op type has its own name and the
call passes a non-empty name different from it, or the op type has no name and the
call passes none (or an empty one), that stage's `buildRewritePatterns` fails for
every context and filter. -/
theorem naming_checked_by_buildRewritePatterns (c : StageCall E) (s : CodegenStrategy E)
    (context : E.MLIRContext) (m : E.LinalgTransformationFilter)
    (h : (∃ ownName, E.getOperationName c.opType = some ownName ∧ c.opName ≠ "" ∧
            c.opName ≠ ownName) ∨
         (E.getOperationName c.opType = none ∧ c.opName = "")) :
    (c.apply s).transformationSequence = s.transformationSequence ++ [c.expectedStage] ∧
    c.expectedStage.LinalgOpType = c.opType ∧
    c.expectedStage.opName = c.opName ∧
    c.expectedStage.buildRewritePatterns context m = none := by
  have h1 : c.expectedStage.LinalgOpType = c.opType := by cases c <;> rfl
  have h2 : c.expectedStage.opName = c.opName := by cases c <;> rfl
  refine ⟨by rw [StageCall.apply_eq], h1, h2, ?_⟩
  rw [Transformation.buildRewritePatterns_eq_none_iff, h1, h2]
  rcases h with ⟨ownName, hown, hne, hdiff⟩ | ⟨hnone, hempty⟩
  · simp only [namingPrecondition, hown]
    exact fun hor => hor.elim hne hdiff
  · simp only [namingPrecondition, hnone]
    exact fun hne => hne hempty

/-- C4 as amended, at `promote<MatmulOp>("linalg.copy", 9)` on a fresh strategy. -/
theorem naming_checked_by_buildRewritePatterns_witness :
    ((StageCall.promoteNamed (E := demo) DemoOp.MatmulOp "linalg.copy" 9 none).apply
        (CodegenStrategy.fresh demo)).transformationSequence
      = [Transformation.Promote
          { LinalgOpType := DemoOp.MatmulOp, filter := none, opName := "linalg.copy",
            options := 9 }] ∧
    (Transformation.Promote (E := demo)
          { LinalgOpType := DemoOp.MatmulOp, filter := none, opName := "linalg.copy",
            options := 9 }).buildRewritePatterns 0 3 = none := by
  have hyp : (∃ ownName, demo.getOperationName DemoOp.MatmulOp = some ownName ∧
      ("linalg.copy" : String) ≠ "" ∧ ("linalg.copy" : String) ≠ ownName) ∨
      (demo.getOperationName DemoOp.MatmulOp = none ∧ ("linalg.copy" : String) = "") :=
    Or.inl ⟨"linalg.matmul", rfl, by decide, by decide⟩
  have h := naming_checked_by_buildRewritePatterns
    (StageCall.promoteNamed (E := demo) DemoOp.MatmulOp "linalg.copy" 9 none)
    (CodegenStrategy.fresh demo) 0 3 hyp
  exact ⟨h.1, h.2.2.2⟩

end stages

/-! Execution: the fail-fast pipeline and what `transform` returns. -/

section execution

variable {E : Externals} {FuncOp : Type}

theorem runSteps_cons (x : Collaborators E FuncOp) (st : Step E) (rest : List (Step E))
    (func : FuncOp) :
    runSteps x (st :: rest) func =
      match st.exec x func with
      | none => none
      | some (LogicalResult.failure, func1) => some (LogicalResult.failure, func1)
      | some (LogicalResult.success, func1) => runSteps x rest func1 := by
  simp only [runSteps]

/-- Steps that all succeeded hand their function state to the steps after them. -/
theorem runSteps_append_of_success (x : Collaborators E FuncOp) (pre rest : List (Step E))
    (func f1 : FuncOp) (h : runSteps x pre func = some (LogicalResult.success, f1)) :
    runSteps x (pre ++ rest) func = runSteps x rest f1 := by
  induction pre generalizing func with
  | nil =>
    simp only [runSteps, Option.some.injEq, Prod.mk.injEq, true_and] at h
    subst h
    rfl
  | cons st pre ih =>
    rw [runSteps_cons] at h
    rw [List.cons_append, runSteps_cons]
    cases hexec : st.exec x func with
    | none => simp [hexec] at h
    | some r =>
      obtain ⟨res, f2⟩ := r
      cases res with
      | success =>
        simp only [hexec] at h ⊢
        exact ih f2 h
      | failure => simp [hexec] at h

/-- A run that ends in failure has a first failing step, and ends in the state
that step left. -/
theorem runSteps_failure_split (x : Collaborators E FuncOp) (steps : List (Step E))
    (func f2 : FuncOp) (h : runSteps x steps func = some (LogicalResult.failure, f2)) :
    ∃ pre st post f1, steps = pre ++ st :: post ∧
      runSteps x pre func = some (LogicalResult.success, f1) ∧
      st.exec x f1 = some (LogicalResult.failure, f2) := by
  induction steps generalizing func with
  | nil => simp [runSteps] at h
  | cons st rest ih =>
    rw [runSteps_cons] at h
    cases hexec : st.exec x func with
    | none => simp [hexec] at h
    | some r =>
      obtain ⟨res, f3⟩ := r
      cases res with
      | success =>
        simp only [hexec] at h
        obtain ⟨pre, st2, post, f1, hsplit, hpre, hst⟩ := ih f3 h
        refine ⟨st :: pre, st2, post, f1, by simp [hsplit], ?_, hst⟩
        rw [runSteps_cons]
        simp only [hexec]
        exact hpre
      | failure =>
        simp only [hexec, Option.some.injEq, Prod.mk.injEq, true_and] at h
        subst h
        exact ⟨[], st, rest, func, rfl, rfl, hexec⟩

/-- A reached step that reports failure ends the run with that failure. -/
theorem runSteps_of_first_failure (x : Collaborators E FuncOp) (pre post : List (Step E))
    (st : Step E) (func f1 f2 : FuncOp)
    (hpre : runSteps x pre func = some (LogicalResult.success, f1))
    (hst : st.exec x f1 = some (LogicalResult.failure, f2)) :
    runSteps x (pre ++ st :: post) func = some (LogicalResult.failure, f2) := by
  rw [runSteps_append_of_success x pre (st :: post) func f1 hpre, runSteps_cons]
  simp only [hst]

/-- A run whose steps can all be executed returns. -/
theorem runSteps_isSome (x : Collaborators E FuncOp) (steps : List (Step E))
    (h : ∀ st ∈ steps, ∀ f, (st.exec x f).isSome = true) (func : FuncOp) :
    (runSteps x steps func).isSome = true := by
  induction steps generalizing func with
  | nil => simp [runSteps]
  | cons st rest ih =>
    rw [runSteps_cons]
    have hst := h st (List.mem_cons_self _ _) func
    cases hexec : st.exec x func with
    | none => simp [hexec] at hst
    | some r =>
      obtain ⟨res, f3⟩ := r
      cases res with
      | success =>
        simp only
        exact ih (fun st2 h2 => h st2 (List.mem_cons_of_mem _ h2)) f3
      | failure => simp

theorem exec_isSome_of_mem_stageSteps (x : Collaborators E FuncOp)
    (stages : List (Transformation E))
    (h : ∀ t ∈ stages, namingPrecondition E t.LinalgOpType t.opName) (position : Nat) :
    ∀ st ∈ stageSteps position stages, ∀ f, (st.exec x f).isSome = true := by
  induction stages generalizing position with
  | nil => simp [stageSteps]
  | cons t rest ih =>
    intro st hst f
    simp only [stageSteps, List.mem_cons] at hst
    rcases hst with rfl | rfl | hst
    · have hne : t.buildRewritePatterns (x.getContext f) (x.stageFilter position t.filter)
          ≠ none := by
        rw [Ne, Transformation.buildRewritePatterns_eq_none_iff, not_not]
        exact h t (List.mem_cons_self _ _)
      simp only [Step.exec]
      cases hb : t.buildRewritePatterns (x.getContext f) (x.stageFilter position t.filter) with
      | none => exact absurd hb hne
      | some built => simp
    · simp [Step.exec]
    · exact ih (fun t2 h2 => h t2 (List.mem_cons_of_mem _ h2)) (position + 1) st hst f

theorem exec_isSome_of_mem_steps (x : Collaborators E FuncOp) (s : CodegenStrategy E)
    (h : ∀ t ∈ s.transformationSequence, namingPrecondition E t.LinalgOpType t.opName) :
    ∀ st ∈ s.steps, ∀ f, (st.exec x f).isSome = true := by
  intro st hst f
  simp only [CodegenStrategy.steps, List.mem_append, List.mem_cons] at hst
  rcases hst with (hst | hst | hst | hst) | hst
  · exact exec_isSome_of_mem_stageSteps x _ h 0 st hst f
  · subst hst; simp [Step.exec]
  · subst hst; simp [Step.exec]
  · simp at hst
  · by_cases hl : s.enableLICM = true
    · simp only [hl, if_true, List.mem_singleton] at hst
      subst hst; simp [Step.exec]
    · simp [hl] at hst

/-- C7 refuted. With one `tile` stage, a run whose vector-transform lowering
reports failure and a run in which every step succeeds give `transform` the same
outcome: the pipeline's result is failure in the first and success in the second,
and neither reaches the caller of the `void` method. -/
theorem transform_returns_no_result :
    ((CodegenStrategy.fresh demo).tile DemoOp.MatmulOp 7 none).pipelineResult
        demoFailingCollaborators 0 = some LogicalResult.failure ∧
    ((CodegenStrategy.fresh demo).tile DemoOp.MatmulOp 7 none).pipelineResult
        demoCollaborators 0 = some LogicalResult.success ∧
    ((CodegenStrategy.fresh demo).tile DemoOp.MatmulOp 7 none).transform
        demoFailingCollaborators 0
      = ((CodegenStrategy.fresh demo).tile DemoOp.MatmulOp 7 none).transform
          demoCollaborators 0 :=
  ⟨rfl, rfl, rfl⟩

/-- C7 as amended. The pipeline that `transform` runs is fail-fast: when a step is
reached after successful steps and reports failure, the pipeline's result is that
failure and the run ends in the state the failing step left, whatever steps follow;
a failure result always comes from such a first failing step; and when every stage
satisfies the naming precondition the pipeline returns, with success unless a step
failed. `transform`, declared `void`, hands the caller only the final function
state of that run. -/
theorem pipeline_is_fail_fast (s : CodegenStrategy E) (x : Collaborators E FuncOp)
    (func : FuncOp) :
    (∀ pre st post f1 f2, s.steps = pre ++ st :: post →
      runSteps x pre func = some (LogicalResult.success, f1) →
      st.exec x f1 = some (LogicalResult.failure, f2) →
      s.pipelineResult x func = some LogicalResult.failure ∧
      s.transform x func = some f2) ∧
    (s.pipelineResult x func = some LogicalResult.failure →
      ∃ pre st post f1 f2, s.steps = pre ++ st :: post ∧
        runSteps x pre func = some (LogicalResult.success, f1) ∧
        st.exec x f1 = some (LogicalResult.failure, f2)) ∧
    ((∀ t ∈ s.transformationSequence, namingPrecondition E t.LinalgOpType t.opName) →
      s.pipelineResult x func = some LogicalResult.failure ∨
      s.pipelineResult x func = some LogicalResult.success) ∧
    s.transform x func = (runSteps x s.steps func).map Prod.snd := by
  refine ⟨?_, ?_, ?_, rfl⟩
  · intro pre st post f1 f2 hsplit hpre hst
    have hrun := runSteps_of_first_failure x pre post st func f1 f2 hpre hst
    rw [← hsplit] at hrun
    simp [CodegenStrategy.pipelineResult, CodegenStrategy.transform, hrun]
  · intro hres
    cases hrun : runSteps x s.steps func with
    | none => simp [CodegenStrategy.pipelineResult, hrun] at hres
    | some r =>
      obtain ⟨res, f2⟩ := r
      simp [CodegenStrategy.pipelineResult, hrun] at hres
      subst hres
      obtain ⟨pre, st, post, f1, hsplit, hpre, hst⟩ :=
        runSteps_failure_split x _ func f2 hrun
      exact ⟨pre, st, post, f1, f2, hsplit, hpre, hst⟩
  · intro hnames
    have hsome := runSteps_isSome x s.steps (exec_isSome_of_mem_steps x s hnames) func
    cases hrun : runSteps x s.steps func with
    | none => simp [hrun] at hsome
    | some r =>
      obtain ⟨res, f3⟩ := r
      cases res with
      | success => right; simp [CodegenStrategy.pipelineResult, hrun]
      | failure => left; simp [CodegenStrategy.pipelineResult, hrun]

/-- C7 as amended, at one `tile<MatmulOp>(7)` stage with a failing vector-transform
lowering: the stage step and the canonicalization succeed, the lowering fails, and
the run ends there. -/
theorem pipeline_is_fail_fast_witness :
    ((CodegenStrategy.fresh demo).tile DemoOp.MatmulOp 7 none).pipelineResult
        demoFailingCollaborators 5 = some LogicalResult.failure ∧
    ((CodegenStrategy.fresh demo).tile DemoOp.MatmulOp 7 none).transform
        demoFailingCollaborators 5 = some 5 :=
  (pipeline_is_fail_fast ((CodegenStrategy.fresh demo).tile DemoOp.MatmulOp 7 none)
      demoFailingCollaborators 5).1
    [Step.applyStage 0 (Transformation.Tile (Tile.create DemoOp.MatmulOp 7 none)),
      Step.canonicalize]
    (Step.lowerVectorTransforms 0)
    [Step.lowerVectorTransfers 0, Step.hoistInvariantCode] 5 5 rfl rfl rfl

end execution

end mlir.linalg
